import Mathlib

/-!
# Verification of the glockenspiel playback scheduler

A shallow embedding, in Lean 4, of the playback scheduler and control loop
of `glockenspiel.ino` (an Arduino sketch that plays MIDI files on a bank of
solenoid-struck chimes).  The sketch runs on an 8-bit AVR where `long` and
`unsigned long` are 32 bits wide, so all time arithmetic is modelled as
natural numbers reduced modulo 2^32, with an explicit signed reinterpretation
`toInt32` where the source stores an unsigned difference into a signed `long`.

External collaborators (SD card, the MIDI stream decoder, the configuration
parser, `micros()`/`millis()`) are modelled as oracle inputs supplied in an
`Env` record: each field corresponds to the result of one external call made
during a single invocation of `loop()`.
-/

namespace Glocken

/-! ## Constants from the sketch -/

/-- MIDI note number of the lowest-pitched chime (`MIN_NOTE_NUM`). -/
def MIN_NOTE_NUM : Nat := 72

/-- Number of consecutive MIDI notes supported, i.e. number of solenoids
(`NUM_NOTE_PINS = sizeof(pinNoteOffset)/sizeof(pinNoteOffset[0]) = 19`). -/
def NUM_NOTE_PINS : Nat := 19

/-- Milliseconds a button reading must remain stable to be trusted
(`MAX_BOUNCE_MS`). -/
def MAX_BOUNCE_MS : Nat := 50

/-- Maximum microseconds the sketch is willing to block in one `loop()` call
(`MAX_MICROS_TO_DELAY = 11 * 1000L`). -/
def MAX_MICROS_TO_DELAY : Int := 11000

/-- Capacity of the simultaneous-note queue
(`MAX_QUEUED_EVENTS = NUM_NOTE_PINS`). -/
def MAX_QUEUED_EVENTS : Nat := NUM_NOTE_PINS

/-- The MIDI channel-event code for Note On (`CH_NOTE_ON` in MidiFileStream). -/
def CH_NOTE_ON : Nat := 9

/-- 2^32, the modulus of AVR `unsigned long` arithmetic. -/
def U32 : Nat := 4294967296

/-! ## 32-bit arithmetic helpers -/

/-- Addition of two `unsigned long` values. -/
def add32 (a b : Nat) : Nat := (a + b) % U32

/-- Subtraction of two `unsigned long` values (wrapping). -/
def sub32 (a b : Nat) : Nat := (a + (U32 - b % U32)) % U32

/-- Reinterpret an `unsigned long` bit pattern as a signed `long`,
as happens when the sketch assigns an unsigned difference to `long`. -/
def toInt32 (a : Nat) : Int := if a % U32 < 2147483648 then (a % U32 : Int) else (a % U32 : Int) - (U32 : Int)

/-! ## Data model -/

/-- The values of the `state` variable (`STATE_ERROR` .. `STATE_WAITING`). -/
inductive PState where
  | error | stopped | paused | endFile | endTrack | events | waiting
deriving DecidableEq, Repr

/-- The kind of a decoded MIDI event, as distinguished by the sketch:
tempo meta events (`ET_TEMPO`, carrying `uSecPerBeat`), channel events
(`ET_CHANNEL`, carrying the channel code and the first parameter = note
number), end-of-track meta events (`ET_END_TRACK`), and undecodable events
(`ET_UNK`).  `ET_END` (no more events) is modelled by an empty stream. -/
inductive EventKind where
  | tempo (uSecPerBeat : Nat)
  | channel (code : Nat) (param1 : Nat)
  | endTrack
  | unknown
deriving DecidableEq, Repr

/-- A decoded MIDI event: delta time in ticks plus its kind. -/
structure MidiEvent where
  delta : Nat
  kind : EventKind
deriving DecidableEq, Repr

/-- The playback-engine portion of the sketch's global variables. -/
structure Engine where
  state : PState
  pausedState : PState
  /-- `microsBehindNext`: while paused, distance from `now` to the next strike. -/
  microsBehindNext : Nat
  /-- `microsPerTick`: current tempo (microseconds per MIDI tick). -/
  microsPerTick : Nat
  /-- `startMicros`: `micros()` value at the start of the current file. -/
  startMicros : Nat
  /-- `microsSinceStart`: time of the most recently queued event relative to `startMicros`. -/
  microsSinceStart : Nat
  /-- `queue[0..numQueued)`: note numbers waiting to be struck simultaneously. -/
  queue : List Nat
  /-- `isPushedBack`: the current event must be reprocessed instead of reading a new one. -/
  isPushedBack : Bool
  /-- The most recently read event (what `midiFile.getEventType()` / data reflect). -/
  current : Option MidiEvent
  /-- The remaining undecoded events of the current track; `[]` decodes as `ET_END`. -/
  stream : List MidiEvent
  /-- Whether `playingFile`/`midiFile` are open. -/
  fileOpen : Bool
  /-- `getTicksPerBeat()` of the currently open MIDI file. -/
  ticksPerBeat : Nat
  /-- `numPlaylistTitles`: number of titles in the cached playlist. -/
  numPlaylistTitles : Nat
  /-- `playOrder[]`: permutation of playlist line numbers, in play order. -/
  playOrder : List Nat
  /-- `nowPlayingIdx`: index into `playOrder` of the current title. -/
  nowPlayingIdx : Nat
  /-- `doShuffle`: the user wants shuffled play. -/
  doShuffle : Bool
  /-- `isShuffled`: the current `playOrder` was built shuffled. -/
  isShuffled : Bool
  /-- `maxMicrosLate`: worst observed lateness (diagnostic). -/
  maxMicrosLate : Nat
deriving DecidableEq, Repr

/-- The five transport intents computed from the debounced buttons in `loop()`. -/
structure Intents where
  changeOnOff : Bool
  changePlayPause : Bool
  skipBack : Bool
  skipForward : Bool
  changeShuffle : Bool
deriving DecidableEq, Repr

/-- Oracle results of the external calls a single `loop()` invocation can make.
`cfgOk` is the (ignored) return value of `readConfiguration()`; `cacheResult`
is what `cacheFile(playlistUrl)` returns (`none` = NULL); `transformOk` the
(only logged) result of `transformSDPlaylist()`; `rand n` models `random(n)`
(reduced mod `n` when used); `now`/`now2` are the values of `micros()` at its
first and second read inside the waiting handler. -/
structure Env where
  cfgOk : Bool
  cacheResult : Option String
  transformOk : Bool
  numPlaylistTitles : Nat
  rand : Nat → Nat
  nextFileReadOk : Bool
  openOk : Bool
  midiBeginOk : Bool
  ticksPerBeat : Nat
  chunkIsTrack : Bool
  now : Nat
  now2 : Nat

/-- Observable side effects of one machine step: the notes actually struck
during a flush, and the number of queue-overflow diagnostics printed. -/
structure Output where
  struck : List Nat := []
  drops : Nat := 0
deriving DecidableEq, Repr

/-! ## The state machine (the `switch (state)` of `loop()`) -/

/-- `doPause()`: save the state and the distance to the next strike, then park. -/
def doPauseE (env : Env) (e : Engine) : Engine :=
  { e with pausedState := e.state,
           microsBehindNext := sub32 (add32 e.startMicros e.microsSinceStart) env.now,
           state := .paused }

/-- `setPlayOrder()`'s Fisher-Yates loop:
`for (numLeft = numPlaylistTitles; numLeft > 1; --numLeft)` with
`i = random(numLeft)` and a swap of `playOrder[i]` with `playOrder[numLeft-1]`. -/
def fyLoop (rand : Nat → Nat) : Nat → List Nat → List Nat
  | 0, l => l
  | 1, l => l
  | numLeft + 2, l =>
      let i := rand (numLeft + 2) % (numLeft + 2)
      let j := numLeft + 1
      fyLoop rand (numLeft + 1) ((l.set i (l.getD j 0)).set j (l.getD i 0))

/-- `setPlayOrder()`: initialize `playOrder[i] = i`; if shuffling, run the
Fisher-Yates loop.  Returns the new order and the new `isShuffled` flag. -/
def setPlayOrder (doShuffle : Bool) (rand : Nat → Nat) (n : Nat) : List Nat × Bool :=
  let order := List.range n
  if !doShuffle then (order, false)
  else (fyLoop rand n order, true)

/-- The play-order maintenance performed by `getNextFilename()`:
`++nowPlayingIdx` (a `uint8_t`, hence mod 256); rebuild the order and reset
the cursor when the list is exhausted or the shuffle flag changed; the final
`Bool` is whether the playlist line was read successfully (oracle). -/
def getNextFilenameE (env : Env) (e : Engine) : Engine × Bool :=
  let idx := (e.nowPlayingIdx + 1) % 256
  let e :=
    if idx ≥ e.numPlaylistTitles ∨ e.doShuffle ≠ e.isShuffled then
      let so := setPlayOrder e.doShuffle env.rand e.numPlaylistTitles
      { e with playOrder := so.1, isShuffled := so.2, nowPlayingIdx := 0 }
    else
      { e with nowPlayingIdx := idx }
  (e, env.nextFileReadOk)

/-- `case STATE_STOPPED`: only the On/Off button is honoured; it reloads the
configuration (result ignored by the sketch), caches the playlist, transforms
it (result only logged), rebuilds the play order, pretends the last title has
just finished, and moves to `STATE_END_FILE`.  A NULL `cacheFile` result is
the only path to `STATE_ERROR`. -/
def stepStopped (env : Env) (i : Intents) (e : Engine) : Engine :=
  if !i.changeOnOff then e
  else
    match env.cacheResult with
    | none => { e with state := .error }
    | some _ =>
        let n := env.numPlaylistTitles
        let so := setPlayOrder e.doShuffle env.rand n
        { e with numPlaylistTitles := n,
                 playOrder := so.1, isShuffled := so.2,
                 nowPlayingIdx := (n + 255) % 256,
                 state := .endFile }

/-- `case STATE_PAUSED`: On/Off closes the file and stops; Play/Pause resumes
by re-anchoring `startMicros = (micros() + microsBehindNext) - microsSinceStart`
and restoring the saved state. -/
def stepPaused (env : Env) (i : Intents) (e : Engine) : Engine :=
  if i.changeOnOff then { e with fileOpen := false, state := .stopped }
  else if !i.changePlayPause then e
  else { e with startMicros := sub32 (add32 env.now e.microsBehindNext) e.microsSinceStart,
                state := e.pausedState }

/-- `case STATE_END_FILE`: transport intents first; then pick the next file,
open it and its MIDI stream, and reset the per-file clocks and queue. -/
def stepEndFile (env : Env) (i : Intents) (e : Engine) : Engine :=
  if i.changeOnOff then { e with state := .stopped }
  else if i.changePlayPause then doPauseE env e
  else
    let r := getNextFilenameE env e
    let e := r.1
    if !r.2 then { e with state := .error }
    else if !env.openOk then { e with state := .endFile }
    else if !env.midiBeginOk then { e with fileOpen := false, state := .endFile }
    else { e with startMicros := env.now, microsSinceStart := 0,
                  isPushedBack := false, queue := [],
                  fileOpen := true, ticksPerBeat := env.ticksPerBeat,
                  state := .endTrack }

/-- `case STATE_END_TRACK`: transport intents first; then open the next chunk:
a track chunk moves to `STATE_EVENTS`, anything else closes the file. -/
def stepEndTrack (env : Env) (i : Intents) (e : Engine) : Engine :=
  if i.changeOnOff then { e with fileOpen := false, state := .stopped }
  else if i.changePlayPause then doPauseE env e
  else if i.skipForward then { e with fileOpen := false, state := .endFile }
  else if env.chunkIsTrack then { e with state := .events }
  else { e with fileOpen := false, state := .endFile }

/-- The per-event logic of `case STATE_EVENTS` after the event has been read
(lines 745-842 of the sketch): the `ET_UNK` check, the delta-time computation
`uSecs = getEventDeltaTicks() * microsPerTick`, the close-the-batch push-back,
the time-overflow guard, and the tempo / Note-On / end-of-track handling. -/
def processEvent (e : Engine) (ev : MidiEvent) : Engine × Output :=
  if ev.kind = .unknown then
    ({ e with fileOpen := false, state := .endFile }, {})  -- ET_UNK: skip file
  else
    -- uSecs = getEventDeltaTicks() * microsPerTick  (32-bit)
    let uSecs := ev.delta * e.microsPerTick % U32
    if uSecs ≠ 0 ∧ e.queue ≠ [] then
      -- close the current batch first: push the event back and wait
      ({ e with isPushedBack := true, state := .waiting }, {})
    else if (e.microsSinceStart + uSecs) % U32 < e.microsSinceStart then
      -- time overflow: abandon the file
      ({ e with fileOpen := false, state := .endFile }, {})
    else
      let e := { e with microsSinceStart := (e.microsSinceStart + uSecs) % U32 }
      match ev.kind with
      | .tempo uspb =>
          ({ e with microsPerTick := uspb / e.ticksPerBeat }, {})
      | .channel code p1 =>
          if code ≠ CH_NOTE_ON then (e, {})
          else if e.queue.length ≥ MAX_QUEUED_EVENTS then (e, { drops := 1 })
          else ({ e with queue := e.queue ++ [p1] }, {})
      | .endTrack => ({ e with state := .waiting }, {})
      | .unknown => (e, {})

/-- `case STATE_EVENTS`: transport intents first; then consume one decoded
event (the pushed-back one if `isPushedBack`, else read a new one; an empty
stream decodes as `ET_END`, the normal end of a track) and process it. -/
def stepEvents (env : Env) (i : Intents) (e : Engine) : Engine × Output :=
  if i.changeOnOff then ({ e with fileOpen := false, state := .stopped }, {})
  else if i.changePlayPause then (doPauseE env e, {})
  else if i.skipForward then ({ e with fileOpen := false, state := .endFile }, {})
  else if e.isPushedBack then
    match e.current with
    | none => ({ e with isPushedBack := false, state := .endTrack }, {})
    | some ev => processEvent { e with isPushedBack := false } ev
  else
    match e.stream with
    | [] => ({ e with current := none, state := .endTrack }, {})
    | ev :: rest => processEvent { e with current := some ev, stream := rest } ev

/-- Is a note number within the supported chime range? -/
def inRange (n : Nat) : Bool := decide (MIN_NOTE_NUM ≤ n ∧ n < MIN_NOTE_NUM + NUM_NOTE_PINS)

/-- `case STATE_WAITING`: transport intents first; then compute the signed
wait `microsToWait = (microsSinceStart + startMicros) - micros()`.  If it is
above `MAX_MICROS_TO_DELAY`, stay in `STATE_WAITING` (cooperative wait);
otherwise block briefly, record lateness, strike every in-range queued note,
clear the queue and return to `STATE_EVENTS`. -/
def stepWaiting (env : Env) (i : Intents) (e : Engine) : Engine × Output :=
  if i.changeOnOff then ({ e with fileOpen := false, state := .stopped }, {})
  else if i.changePlayPause then (doPauseE env e, {})
  else if i.skipForward then ({ e with fileOpen := false, state := .endFile }, {})
  else
    let w := toInt32 (sub32 (add32 e.microsSinceStart e.startMicros) env.now)
    if w > MAX_MICROS_TO_DELAY then (e, {})
    else
      -- (delayMicroseconds happens here when w > 0; afterwards micros() = now2)
      let w2 := toInt32 (sub32 (add32 e.microsSinceStart e.startMicros) env.now2)
      let e := if w2 < 0 ∧ e.maxMicrosLate < (-w2).toNat
               then { e with maxMicrosLate := (-w2).toNat } else e
      ({ e with queue := [], state := .events },
       { struck := e.queue.filter inRange })

/-- The `doShuffle` update done ahead of the switch: the Shuffle intent is
honoured only while neither in `STATE_ERROR` nor `STATE_STOPPED`. -/
def stepShuffleFlag (i : Intents) (e : Engine) : Engine :=
  if e.state ≠ .error ∧ e.state ≠ .stopped ∧ i.changeShuffle then
    { e with doShuffle := !e.doShuffle }
  else e

/-- One full pass of the `switch (state)` state machine of `loop()`,
including the preceding `doShuffle` update (which never changes `state`,
so the switch may equivalently scrutinise the incoming state). -/
def machineStep (env : Env) (i : Intents) (e : Engine) : Engine × Output :=
  let e' := stepShuffleFlag i e
  match e.state with
  | .error => (e', {})
  | .stopped => (stepStopped env i e', {})
  | .paused => (stepPaused env i e', {})
  | .endFile => (stepEndFile env i e', {})
  | .endTrack => (stepEndTrack env i e', {})
  | .events => stepEvents env i e'
  | .waiting => stepWaiting env i e'

/-! ## Debounce (one channel of the five buttons) -/

/-- One button channel's persistent debounce state: the raw reading from the
previous pass (`pressedButtonX`), the debounced reading (`heldButtonX`) and
the `millis()` timestamp of the last raw change (`changedButtonXMs`). -/
structure Channel where
  pressed : Bool
  held : Bool
  changedMs : Nat
deriving DecidableEq, Repr

/-- One pass of the per-button debounce logic of `loop()`:
record the time of any raw change; if the raw state has then been stable for
strictly more than `MAX_BOUNCE_MS` milliseconds and differs from the held
state, adopt it, and emit the one-shot intent exactly when the new held state
is pressed.  `ms` is the current `millis()` value. -/
def debounceStep (c : Channel) (raw : Bool) (ms : Nat) : Channel × Bool :=
  let changedMs := if raw ≠ c.pressed then ms else c.changedMs
  if sub32 ms changedMs > MAX_BOUNCE_MS then
    if raw ≠ c.held then ({ pressed := raw, held := raw, changedMs }, raw)
    else ({ pressed := raw, held := c.held, changedMs }, false)
  else ({ pressed := raw, held := c.held, changedMs }, false)

/-- Run the debounce over a trace of `(raw, millis)` samples, collecting
the emitted intents. -/
def debounceRun (c : Channel) : List (Bool × Nat) → Channel × List Bool
  | [] => (c, [])
  | (raw, ms) :: rest =>
      let r := debounceStep c raw ms
      let rr := debounceRun r.1 rest
      (rr.1, r.2 :: rr.2)

/-! ## The full control loop -/

/-- Raw `digitalRead` values (true = LOW) of the five buttons for one pass. -/
structure Buttons where
  offLow : Bool
  pauseLow : Bool
  backLow : Bool
  forwardLow : Bool
  shuffleLow : Bool
deriving DecidableEq, Repr

/-- All mutable state touched by `loop()`: the engine plus the five
button channels. -/
structure Sys where
  engine : Engine
  chOn : Channel
  chPlay : Channel
  chBack : Channel
  chForward : Channel
  chShuffle : Channel
deriving DecidableEq, Repr

/-- The indicator outputs written at the end of `loop()`. -/
structure Leds where
  isOn : Bool
  playing : Bool
  back : Bool
  forward : Bool
  shuffle : Bool
deriving DecidableEq, Repr

/-- One invocation of `loop()`: debounce the five buttons into transport
intents (the Forward and Shuffle buttons are wired inverted, corrected at the
sampling boundary), run the state machine, and compute the indicator LEDs.
`ms` is the `millis()` value for this pass. -/
def loopStep (env : Env) (ms : Nat) (b : Buttons) (s : Sys) : Sys × Output × Leds :=
  let dOn := debounceStep s.chOn b.offLow ms
  let dPlay := debounceStep s.chPlay b.pauseLow ms
  let dBack := debounceStep s.chBack b.backLow ms
  let dForward := debounceStep s.chForward (!b.forwardLow) ms
  let dShuffle := debounceStep s.chShuffle (!b.shuffleLow) ms
  let i : Intents :=
    { changeOnOff := dOn.2, changePlayPause := dPlay.2, skipBack := dBack.2,
      skipForward := dForward.2, changeShuffle := dShuffle.2 }
  let r := machineStep env i s.engine
  let e := r.1
  let leds : Leds :=
    { isOn := if e.state = .error then (ms % 1000) < 500
              else if e.state = .stopped then false else true,
      playing := e.state = .paused,
      back := dBack.1.held,
      forward := dForward.1.held,
      shuffle := if e.state = .error ∨ e.state = .stopped then false else e.doShuffle }
  ({ engine := e, chOn := dOn.1, chPlay := dPlay.1, chBack := dBack.1,
     chForward := dForward.1, chShuffle := dShuffle.1 }, r.2, leds)

/-! ## Concrete fixtures for witnesses -/

/-- A concrete environment for witness evaluations. -/
def env0 : Env :=
  { cfgOk := true, cacheResult := some "song.mid", transformOk := true,
    numPlaylistTitles := 3, rand := fun _ => 0, nextFileReadOk := true,
    openOk := true, midiBeginOk := true, ticksPerBeat := 480,
    chunkIsTrack := true, now := 100000, now2 := 100500 }

/-- The transport intent of a debounced Play/Pause press. -/
def iPause : Intents :=
  { changeOnOff := false, changePlayPause := true, skipBack := false,
    skipForward := false, changeShuffle := false }

/-- The no-intent input (no button action this pass). -/
def iNone : Intents :=
  { changeOnOff := false, changePlayPause := false, skipBack := false,
    skipForward := false, changeShuffle := false }

/-- A concrete mid-track engine state for witness evaluations. -/
def eng0 : Engine :=
  { state := .events, pausedState := .stopped, microsBehindNext := 0,
    microsPerTick := 1041, startMicros := 500, microsSinceStart := 2000,
    queue := [72, 75], isPushedBack := false,
    current := some ⟨0, .channel 9 75⟩,
    stream := [⟨480, .channel 9 74⟩], fileOpen := true, ticksPerBeat := 480,
    numPlaylistTitles := 3, playOrder := [0, 1, 2], nowPlayingIdx := 1,
    doShuffle := false, isShuffled := false, maxMicrosLate := 0 }

/-- A concrete engine about to read a tempo event (500000 us/beat at 480
ticks/beat) followed by a Note-On with a 480-tick delta. -/
def engTempo : Engine :=
  { state := .events, pausedState := .stopped, microsBehindNext := 0,
    microsPerTick := 1, startMicros := 0, microsSinceStart := 0,
    queue := [], isPushedBack := false, current := none,
    stream := [⟨0, .tempo 500000⟩, ⟨480, .channel 9 72⟩], fileOpen := true,
    ticksPerBeat := 480, numPlaylistTitles := 3, playOrder := [0, 1, 2],
    nowPlayingIdx := 0, doShuffle := false, isShuffled := false,
    maxMicrosLate := 0 }

/-- A Note-On event with zero delta (simultaneous with its predecessor). -/
def noteOn (p : Nat) : MidiEvent := ⟨0, .channel CH_NOTE_ON p⟩

/-- A run of simultaneous Note-On events, one per pitch. -/
def zeroRun (ps : List Nat) : List MidiEvent := ps.map noteOn

/-- Iterate the machine step `n` times with fixed environment and intents,
collecting the outputs of each step. -/
def runSteps (env : Env) (i : Intents) : Engine → Nat → Engine × List Output
  | e, 0 => (e, [])
  | e, n + 1 =>
      let r := machineStep env i e
      let rr := runSteps env i r.1 n
      (rr.1, r.2 :: rr.2)

/-- A concrete engine in `events` about to read two simultaneous Note-On
events followed by a nonzero-delta Note-On. -/
def engRun : Engine :=
  { engTempo with microsPerTick := 1041,
                  stream := zeroRun [72, 73] ++ [⟨480, .channel 9 74⟩] }

/-- Twenty distinct pitches: one more than the number of actuators. -/
def pitches20 : List Nat := (List.range 20).map (fun k => 72 + k)

/-- A concrete engine in `events` about to read `NUM_NOTE_PINS + 1 = 20`
simultaneous Note-On events. -/
def engQ : Engine := { engTempo with stream := zeroRun pitches20 }

/-- The sample trace of a press sustained across `d` control-loop passes,
one sample per millisecond: raw `true` at times `t+1, t+2, ..., t+d`. -/
def pressSamples (t d : Nat) : List (Bool × Nat) :=
  (List.range d).map (fun k => (true, t + 1 + k))

/-! ## Arithmetic facts about the 32-bit helpers -/

theorem add32_lt (a b : Nat) : add32 a b < U32 := by
  simp only [add32, U32]; omega

theorem sub32_lt (a b : Nat) : sub32 a b < U32 := by
  simp only [sub32, U32]; omega

theorem add32_comm (a b : Nat) : add32 a b = add32 b a := by
  simp only [add32, Nat.add_comm]

theorem add32_sub32_cancel {a b : Nat} (hb : b < U32) : add32 a (sub32 b a) = b := by
  simp only [add32, sub32, U32] at *; omega

theorem sub32_add32_cancel {a b : Nat} (hb : b < U32) : sub32 (add32 a b) a = b := by
  simp only [add32, sub32, U32] at *; omega

/-! ## Simple facts about the shuffle-flag update -/

@[simp] theorem shuffleFlag_state (i : Intents) (e : Engine) :
    (stepShuffleFlag i e).state = e.state := by
  unfold stepShuffleFlag; split <;> rfl

@[simp] theorem shuffleFlag_pausedState (i : Intents) (e : Engine) :
    (stepShuffleFlag i e).pausedState = e.pausedState := by
  unfold stepShuffleFlag; split <;> rfl

@[simp] theorem shuffleFlag_microsBehindNext (i : Intents) (e : Engine) :
    (stepShuffleFlag i e).microsBehindNext = e.microsBehindNext := by
  unfold stepShuffleFlag; split <;> rfl

@[simp] theorem shuffleFlag_microsPerTick (i : Intents) (e : Engine) :
    (stepShuffleFlag i e).microsPerTick = e.microsPerTick := by
  unfold stepShuffleFlag; split <;> rfl

@[simp] theorem shuffleFlag_startMicros (i : Intents) (e : Engine) :
    (stepShuffleFlag i e).startMicros = e.startMicros := by
  unfold stepShuffleFlag; split <;> rfl

@[simp] theorem shuffleFlag_microsSinceStart (i : Intents) (e : Engine) :
    (stepShuffleFlag i e).microsSinceStart = e.microsSinceStart := by
  unfold stepShuffleFlag; split <;> rfl

@[simp] theorem shuffleFlag_queue (i : Intents) (e : Engine) :
    (stepShuffleFlag i e).queue = e.queue := by
  unfold stepShuffleFlag; split <;> rfl

@[simp] theorem shuffleFlag_isPushedBack (i : Intents) (e : Engine) :
    (stepShuffleFlag i e).isPushedBack = e.isPushedBack := by
  unfold stepShuffleFlag; split <;> rfl

@[simp] theorem shuffleFlag_current (i : Intents) (e : Engine) :
    (stepShuffleFlag i e).current = e.current := by
  unfold stepShuffleFlag; split <;> rfl

@[simp] theorem shuffleFlag_stream (i : Intents) (e : Engine) :
    (stepShuffleFlag i e).stream = e.stream := by
  unfold stepShuffleFlag; split <;> rfl

@[simp] theorem shuffleFlag_fileOpen (i : Intents) (e : Engine) :
    (stepShuffleFlag i e).fileOpen = e.fileOpen := by
  unfold stepShuffleFlag; split <;> rfl

@[simp] theorem shuffleFlag_ticksPerBeat (i : Intents) (e : Engine) :
    (stepShuffleFlag i e).ticksPerBeat = e.ticksPerBeat := by
  unfold stepShuffleFlag; split <;> rfl

@[simp] theorem shuffleFlag_numPlaylistTitles (i : Intents) (e : Engine) :
    (stepShuffleFlag i e).numPlaylistTitles = e.numPlaylistTitles := by
  unfold stepShuffleFlag; split <;> rfl

@[simp] theorem shuffleFlag_playOrder (i : Intents) (e : Engine) :
    (stepShuffleFlag i e).playOrder = e.playOrder := by
  unfold stepShuffleFlag; split <;> rfl

@[simp] theorem shuffleFlag_nowPlayingIdx (i : Intents) (e : Engine) :
    (stepShuffleFlag i e).nowPlayingIdx = e.nowPlayingIdx := by
  unfold stepShuffleFlag; split <;> rfl

@[simp] theorem shuffleFlag_isShuffled (i : Intents) (e : Engine) :
    (stepShuffleFlag i e).isShuffled = e.isShuffled := by
  unfold stepShuffleFlag; split <;> rfl

/-- No transport button produced an intent in this pass. -/
def quiet (i : Intents) : Prop :=
  i.changeOnOff = false ∧ i.changePlayPause = false ∧
  i.skipForward = false ∧ i.changeShuffle = false

theorem stepShuffleFlag_quiet {i : Intents} (e : Engine) (h : i.changeShuffle = false) :
    stepShuffleFlag i e = e := by
  unfold stepShuffleFlag
  simp [h]

/-- With quiet intents, a machine step in `events` on a fresh (not pushed-back)
engine reads the head of the stream and processes it. -/
theorem machineStep_events_fresh (env : Env) {i : Intents} (e : Engine)
    {ev : MidiEvent} {rest : List MidiEvent}
    (hq : quiet i) (hs : e.state = .events) (hpb : e.isPushedBack = false)
    (hstr : e.stream = ev :: rest) :
    machineStep env i e = processEvent { e with current := some ev, stream := rest } ev := by
  obtain ⟨h1, h2, h3, h4⟩ := hq
  simp only [machineStep, hs, stepShuffleFlag_quiet e h4, stepEvents, h1, h2, h3, hpb, hstr,
    Bool.false_eq_true, if_false]

/-- With quiet intents, a machine step in `events` on a pushed-back engine
reprocesses the stored current event without reading from the stream. -/
theorem machineStep_events_pushed (env : Env) {i : Intents} (e : Engine)
    {ev : MidiEvent}
    (hq : quiet i) (hs : e.state = .events) (hpb : e.isPushedBack = true)
    (hcur : e.current = some ev) :
    machineStep env i e = processEvent { e with isPushedBack := false } ev := by
  obtain ⟨h1, h2, h3, h4⟩ := hq
  simp only [machineStep, hs, stepShuffleFlag_quiet e h4, stepEvents, h1, h2, h3, hpb, hcur,
    Bool.false_eq_true, if_false, if_true]

/-- With quiet intents and a computed wait not exceeding the blocking ceiling,
a machine step in `waiting` strikes every in-range queued note, clears the
queue and returns to `events`, leaving the lookahead state untouched. -/
theorem machineStep_waiting_flush (env : Env) {i : Intents} (e : Engine)
    (hq : quiet i) (hs : e.state = .waiting)
    (hw : toInt32 (sub32 (add32 e.microsSinceStart e.startMicros) env.now)
            ≤ MAX_MICROS_TO_DELAY) :
    (machineStep env i e).1.queue = [] ∧
    (machineStep env i e).1.state = .events ∧
    (machineStep env i e).1.isPushedBack = e.isPushedBack ∧
    (machineStep env i e).1.current = e.current ∧
    (machineStep env i e).1.stream = e.stream ∧
    (machineStep env i e).1.microsSinceStart = e.microsSinceStart ∧
    (machineStep env i e).1.startMicros = e.startMicros ∧
    (machineStep env i e).1.microsPerTick = e.microsPerTick ∧
    (machineStep env i e).2 = { struck := e.queue.filter inRange } := by
  obtain ⟨h1, h2, h3, h4⟩ := hq
  have hw' : ¬ (toInt32 (sub32 (add32 e.microsSinceStart e.startMicros) env.now)
      > MAX_MICROS_TO_DELAY) := not_lt.mpr hw
  simp only [machineStep, hs, stepShuffleFlag_quiet e h4, stepWaiting, h1, h2, h3,
    Bool.false_eq_true, if_false, hw', ite_false]
  split <;> simp [Output.mk.injEq]

/-- Event processing when the delta is nonzero and notes are queued: push the
event back and go wait; nothing else changes. -/
theorem processEvent_pushback (e : Engine) (ev : MidiEvent)
    (hk : ev.kind ≠ .unknown)
    (hu : ev.delta * e.microsPerTick % U32 ≠ 0) (hne : e.queue ≠ []) :
    processEvent e ev = ({ e with isPushedBack := true, state := .waiting }, {}) := by
  simp only [processEvent, if_neg hk]
  rw [if_pos ⟨hu, hne⟩]

/-- Event processing when the batch is not being closed and accumulating the
delta would wrap: abandon the file. -/
theorem processEvent_overflow (e : Engine) (ev : MidiEvent)
    (hk : ev.kind ≠ .unknown)
    (hno : ¬ (ev.delta * e.microsPerTick % U32 ≠ 0 ∧ e.queue ≠ []))
    (hw : (e.microsSinceStart + ev.delta * e.microsPerTick % U32) % U32
            < e.microsSinceStart) :
    processEvent e ev = ({ e with fileOpen := false, state := .endFile }, {}) := by
  simp only [processEvent, if_neg hk, if_neg hno]
  rw [if_pos hw]

/-- Tempo event processing (no wrap): the delta is accumulated and
`microsPerTick = uSecPerBeat / ticksPerBeat` takes effect immediately, with
the queue untouched and the state still `events`. -/
theorem processEvent_tempo (e : Engine) (ev : MidiEvent) (uspb : Nat)
    (hk : ev.kind = .tempo uspb)
    (hno : ¬ (ev.delta * e.microsPerTick % U32 ≠ 0 ∧ e.queue ≠ []))
    (hw : ¬ (e.microsSinceStart + ev.delta * e.microsPerTick % U32) % U32
            < e.microsSinceStart) :
    processEvent e ev =
      ({ e with microsSinceStart := (e.microsSinceStart + ev.delta * e.microsPerTick % U32) % U32,
                microsPerTick := uspb / e.ticksPerBeat }, {}) := by
  have hk' : ev.kind ≠ .unknown := by rw [hk]; intro h; cases h
  simp only [processEvent, if_neg hk', if_neg hno, if_neg hw, hk]
  simp

/-- Note-On event processing (no wrap, queue not full): the delta is
accumulated and the pitch is appended to the queue. -/
theorem processEvent_noteOn (e : Engine) (ev : MidiEvent) (p : Nat)
    (hk : ev.kind = .channel CH_NOTE_ON p)
    (hno : ¬ (ev.delta * e.microsPerTick % U32 ≠ 0 ∧ e.queue ≠ []))
    (hw : ¬ (e.microsSinceStart + ev.delta * e.microsPerTick % U32) % U32
            < e.microsSinceStart)
    (hlen : e.queue.length < MAX_QUEUED_EVENTS) :
    processEvent e ev =
      ({ e with microsSinceStart := (e.microsSinceStart + ev.delta * e.microsPerTick % U32) % U32,
                queue := e.queue ++ [p] }, {}) := by
  have hk' : ev.kind ≠ .unknown := by rw [hk]; intro h; cases h
  simp only [processEvent, if_neg hk', if_neg hno, if_neg hw, hk]
  simp [not_le.mpr hlen]

/-- Note-On event processing when the queue is already full: the note is
dropped with one diagnostic and the engine keeps reading events. -/
theorem processEvent_noteOn_full (e : Engine) (ev : MidiEvent) (p : Nat)
    (hk : ev.kind = .channel CH_NOTE_ON p)
    (hno : ¬ (ev.delta * e.microsPerTick % U32 ≠ 0 ∧ e.queue ≠ []))
    (hw : ¬ (e.microsSinceStart + ev.delta * e.microsPerTick % U32) % U32
            < e.microsSinceStart)
    (hlen : MAX_QUEUED_EVENTS ≤ e.queue.length) :
    processEvent e ev =
      ({ e with microsSinceStart := (e.microsSinceStart + ev.delta * e.microsPerTick % U32) % U32 },
       { drops := 1 }) := by
  have hk' : ev.kind ≠ .unknown := by rw [hk]; intro h; cases h
  simp only [processEvent, if_neg hk', if_neg hno, if_neg hw, hk]
  simp [hlen, ge_iff_le]

/-- End-of-track event processing (no wrap): go flush whatever is queued. -/
theorem processEvent_endTrack (e : Engine) (ev : MidiEvent)
    (hk : ev.kind = .endTrack)
    (hno : ¬ (ev.delta * e.microsPerTick % U32 ≠ 0 ∧ e.queue ≠ []))
    (hw : ¬ (e.microsSinceStart + ev.delta * e.microsPerTick % U32) % U32
            < e.microsSinceStart) :
    processEvent e ev =
      ({ e with microsSinceStart := (e.microsSinceStart + ev.delta * e.microsPerTick % U32) % U32,
                state := .waiting }, {}) := by
  have hk' : ev.kind ≠ .unknown := by rw [hk]; intro h; cases h
  simp only [processEvent, if_neg hk', if_neg hno, if_neg hw, hk]
  simp

/-- Whatever its kind, a consumed event (not pushed back, no wrap) leaves
`microsSinceStart` advanced by exactly `uSecs`, modulo 2^32. -/
theorem processEvent_consumed_micros (e : Engine) (ev : MidiEvent)
    (hk : ev.kind ≠ .unknown)
    (hno : ¬ (ev.delta * e.microsPerTick % U32 ≠ 0 ∧ e.queue ≠ []))
    (hw : ¬ (e.microsSinceStart + ev.delta * e.microsPerTick % U32) % U32
            < e.microsSinceStart) :
    (processEvent e ev).1.microsSinceStart
      = (e.microsSinceStart + ev.delta * e.microsPerTick % U32) % U32 := by
  simp only [processEvent, if_neg hk, if_neg hno, if_neg hw]
  cases hkind : ev.kind with
  | tempo uspb => rfl
  | channel code p1 => dsimp only; split <;> [rfl; (split <;> rfl)]
  | endTrack => rfl
  | unknown => rfl

/-- C3: for every event consumed in the `events` state, `microsSinceStart` is
monotonically non-decreasing: the engine first checks whether
`microsSinceStart + uSecs` would wrap below the current value; if so it closes
the file and stream and transitions to `endFile` with `microsSinceStart`
untouched, and otherwise `microsSinceStart` increases by exactly `uSecs`. -/
theorem C3_overflow_guard (env : Env) (i : Intents) (e : Engine) (ev : MidiEvent)
    (rest : List MidiEvent)
    (hq : quiet i) (hs : e.state = .events)
    (hf : (e.isPushedBack = true ∧ e.current = some ev) ∨
          (e.isPushedBack = false ∧ e.stream = ev :: rest))
    (hk : ev.kind ≠ .unknown)
    (hno : ¬ (ev.delta * e.microsPerTick % U32 ≠ 0 ∧ e.queue ≠ []))
    (hm : e.microsSinceStart < U32) :
    e.microsSinceStart ≤ (machineStep env i e).1.microsSinceStart ∧
    ((e.microsSinceStart + ev.delta * e.microsPerTick % U32) % U32 < e.microsSinceStart →
      (machineStep env i e).1.state = .endFile ∧
      (machineStep env i e).1.fileOpen = false ∧
      (machineStep env i e).1.microsSinceStart = e.microsSinceStart) ∧
    (¬ (e.microsSinceStart + ev.delta * e.microsPerTick % U32) % U32 < e.microsSinceStart →
      (machineStep env i e).1.microsSinceStart
        = e.microsSinceStart + ev.delta * e.microsPerTick % U32) := by
  have hu : ev.delta * e.microsPerTick % U32 < U32 :=
    Nat.mod_lt _ (by norm_num [U32])
  have main : ∀ e' : Engine, machineStep env i e = processEvent e' ev →
      e'.microsSinceStart = e.microsSinceStart → e'.microsPerTick = e.microsPerTick →
      e'.queue = e.queue →
      e.microsSinceStart ≤ (machineStep env i e).1.microsSinceStart ∧
      ((e.microsSinceStart + ev.delta * e.microsPerTick % U32) % U32 < e.microsSinceStart →
        (machineStep env i e).1.state = .endFile ∧
        (machineStep env i e).1.fileOpen = false ∧
        (machineStep env i e).1.microsSinceStart = e.microsSinceStart) ∧
      (¬ (e.microsSinceStart + ev.delta * e.microsPerTick % U32) % U32 < e.microsSinceStart →
        (machineStep env i e).1.microsSinceStart
          = e.microsSinceStart + ev.delta * e.microsPerTick % U32) := by
    intro e' heq hm' hp' hq'
    by_cases hw : (e.microsSinceStart + ev.delta * e.microsPerTick % U32) % U32
        < e.microsSinceStart
    · have hov := processEvent_overflow e' ev hk (by rw [hp', hq']; exact hno)
        (by rw [hm', hp']; exact hw)
      rw [heq, hov]
      refine ⟨by simp [hm'], fun _ => ⟨by simp, by simp, by simp [hm']⟩, fun hc => absurd hw hc⟩
    · have hmic := processEvent_consumed_micros e' ev hk (by rw [hp', hq']; exact hno)
        (by rw [hm', hp']; exact hw)
      rw [hm', hp'] at hmic
      have heqm : (e.microsSinceStart + ev.delta * e.microsPerTick % U32) % U32
          = e.microsSinceStart + ev.delta * e.microsPerTick % U32 := by
        simp only [U32] at hm hu hw ⊢
        omega
      refine ⟨?_, fun hc => absurd hc hw, fun _ => by rw [heq, hmic, heqm]⟩
      rw [heq, hmic, heqm]
      exact Nat.le_add_right _ _
  rcases hf with ⟨hpb, hcur⟩ | ⟨hpb, hstr⟩
  · exact main { e with isPushedBack := false }
      (machineStep_events_pushed env e hq hs hpb hcur) rfl rfl rfl
  · exact main { e with current := some ev, stream := rest }
      (machineStep_events_fresh env e hq hs hpb hstr) rfl rfl rfl

/-- C4: a consumed tempo event recomputes
`microsPerTick = uSecPerBeat / ticksPerBeat` (C integer division, truncating)
immediately - the queue is untouched and the engine stays in `events` - and
concretely 500000 us/beat at 480 ticks/beat gives `microsPerTick = 1041`,
after which an event with a 480-tick delta advances the clock by exactly
`480 * 1041 = 499680` microseconds. -/
theorem C4_tempo (env : Env) (i : Intents) (e : Engine) (ev : MidiEvent)
    (uspb : Nat) (rest : List MidiEvent)
    (hq : quiet i) (hs : e.state = .events)
    (hf : (e.isPushedBack = true ∧ e.current = some ev) ∨
          (e.isPushedBack = false ∧ e.stream = ev :: rest))
    (hk : ev.kind = .tempo uspb)
    (hno : ¬ (ev.delta * e.microsPerTick % U32 ≠ 0 ∧ e.queue ≠ []))
    (hw : ¬ (e.microsSinceStart + ev.delta * e.microsPerTick % U32) % U32
            < e.microsSinceStart) :
    (machineStep env i e).1.microsPerTick = uspb / e.ticksPerBeat ∧
    (machineStep env i e).1.queue = e.queue ∧
    (machineStep env i e).1.state = .events ∧
    (machineStep env0 iNone engTempo).1.microsPerTick = 1041 ∧
    (machineStep env0 iNone (machineStep env0 iNone engTempo).1).1.microsSinceStart
      = 480 * 1041 := by
  have main : ∀ e' : Engine, machineStep env i e = processEvent e' ev →
      e'.microsPerTick = e.microsPerTick → e'.queue = e.queue → e'.state = e.state →
      e'.microsSinceStart = e.microsSinceStart → e'.ticksPerBeat = e.ticksPerBeat →
      (machineStep env i e).1.microsPerTick = uspb / e.ticksPerBeat ∧
      (machineStep env i e).1.queue = e.queue ∧
      (machineStep env i e).1.state = .events := by
    intro e' heq h1 h2 h3 h4 h5
    rw [heq, processEvent_tempo e' ev uspb hk (by rw [h1, h2]; exact hno)
      (by rw [h4, h1]; exact hw)]
    exact ⟨by simp [h5], by simp [h2], by simp [h3, hs]⟩
  rcases hf with ⟨hpb, hcur⟩ | ⟨hpb, hstr⟩
  · have h := main { e with isPushedBack := false }
      (machineStep_events_pushed env e hq hs hpb hcur) rfl rfl rfl rfl rfl
    exact ⟨h.1, h.2.1, h.2.2, by decide, by decide⟩
  · have h := main { e with current := some ev, stream := rest }
      (machineStep_events_fresh env e hq hs hpb hstr) rfl rfl rfl rfl rfl
    exact ⟨h.1, h.2.1, h.2.2, by decide, by decide⟩

/-- C2: Pause captures `microsBehindNext = (startMicros + microsSinceStart) - now`
and resume re-anchors `startMicros = (now' + microsBehindNext) - microsSinceStart`,
so at the moment of resume the recomputed wait-to-next-event
`(microsSinceStart + startMicros) - now'` equals (exactly, in modulo-2^32
unsigned arithmetic) the wait that was pending when pause began - no catch-up
burst and no double wait - and the saved state, the note queue, the lookahead
flag, the current event, the stream and the clocks are unchanged by the
pause/resume round trip. -/
theorem C2_pause_resume (env env' : Env) (i : Intents) (e : Engine)
    (hs : e.state = .endFile ∨ e.state = .endTrack ∨ e.state = .events ∨ e.state = .waiting)
    (hoff : i.changeOnOff = false) (hpp : i.changePlayPause = true)
    (hm : e.microsSinceStart < U32) :
    (machineStep env i e).1.state = .paused ∧
    (machineStep env i e).1.pausedState = e.state ∧
    (machineStep env i e).1.microsBehindNext
      = sub32 (add32 e.startMicros e.microsSinceStart) env.now ∧
    (machineStep env' i (machineStep env i e).1).1.state = e.state ∧
    (machineStep env' i (machineStep env i e).1).1.startMicros
      = sub32 (add32 env'.now (machineStep env i e).1.microsBehindNext) e.microsSinceStart ∧
    sub32 (add32 (machineStep env' i (machineStep env i e).1).1.microsSinceStart
                 (machineStep env' i (machineStep env i e).1).1.startMicros) env'.now
      = sub32 (add32 e.microsSinceStart e.startMicros) env.now ∧
    (machineStep env' i (machineStep env i e).1).1.queue = e.queue ∧
    (machineStep env' i (machineStep env i e).1).1.isPushedBack = e.isPushedBack ∧
    (machineStep env' i (machineStep env i e).1).1.current = e.current ∧
    (machineStep env' i (machineStep env i e).1).1.stream = e.stream ∧
    (machineStep env' i (machineStep env i e).1).1.microsSinceStart = e.microsSinceStart ∧
    (machineStep env' i (machineStep env i e).1).1.microsPerTick = e.microsPerTick := by
  have key : ∀ b m n' : Nat, b < U32 → m < U32 →
      sub32 (add32 m (sub32 (add32 n' b) m)) n' = b := by
    intro b m n' hb hm
    rw [add32_sub32_cancel (add32_lt _ _), sub32_add32_cancel hb]
  rcases hs with h|h|h|h <;>
    simp only [machineStep, h, shuffleFlag_state, stepEndFile, stepEndTrack, stepEvents,
      stepWaiting, stepPaused, doPauseE, hoff, hpp, Bool.false_eq_true, if_false, if_true,
      Bool.not_false, Bool.not_true, ite_true, ite_false] <;>
    simp [doPauseE, stepPaused, hoff, hpp, add32_comm e.microsSinceStart e.startMicros,
      key _ _ _ (sub32_lt _ _) hm]

/-- Witness for C2: the pause/resume round trip restores the `events` state
at a concrete mid-track engine state. -/
theorem C2_pause_resume_witness :
    (machineStep env0 iPause (machineStep env0 iPause eng0).1).1.state = eng0.state ∧
    sub32 (add32 (machineStep env0 iPause (machineStep env0 iPause eng0).1).1.microsSinceStart
                 (machineStep env0 iPause (machineStep env0 iPause eng0).1).1.startMicros) env0.now
      = sub32 (add32 eng0.microsSinceStart eng0.startMicros) env0.now := by
  have h := C2_pause_resume env0 env0 iPause eng0
    (Or.inr (Or.inr (Or.inl rfl))) rfl rfl (by decide)
  exact ⟨h.2.2.2.1, h.2.2.2.2.2.1⟩

/-- C10: a debounced Play/Pause press is accepted in the `endFile` state: it
parks the engine in `paused` with `pausedState = endFile`, without closing the
file or touching the play-order cursor, and a subsequent resume returns the
engine to `endFile` (cursor and file status still untouched). -/
theorem C10_pause_in_endFile (env env' : Env) (i : Intents) (e : Engine)
    (hs : e.state = .endFile) (hoff : i.changeOnOff = false)
    (hpp : i.changePlayPause = true) :
    (machineStep env i e).1.state = .paused ∧
    (machineStep env i e).1.pausedState = .endFile ∧
    (machineStep env i e).1.fileOpen = e.fileOpen ∧
    (machineStep env i e).1.nowPlayingIdx = e.nowPlayingIdx ∧
    (machineStep env i e).1.playOrder = e.playOrder ∧
    (machineStep env' i (machineStep env i e).1).1.state = .endFile ∧
    (machineStep env' i (machineStep env i e).1).1.fileOpen = e.fileOpen ∧
    (machineStep env' i (machineStep env i e).1).1.nowPlayingIdx = e.nowPlayingIdx ∧
    (machineStep env' i (machineStep env i e).1).1.playOrder = e.playOrder := by
  simp only [machineStep, hs, shuffleFlag_state, stepEndFile, doPauseE, hoff, hpp,
    Bool.false_eq_true, if_false, if_true, Bool.not_false, Bool.not_true,
    ite_true, ite_false]
  simp [stepPaused, doPauseE, hoff, hpp]

/-- Witness for C10: pausing and resuming in `endFile` at a concrete engine
state round-trips to `endFile` with the cursor untouched. -/
theorem C10_pause_in_endFile_witness :
    (machineStep env0 iPause { eng0 with state := .endFile }).1.state = .paused ∧
    (machineStep env0 iPause
      (machineStep env0 iPause { eng0 with state := .endFile }).1).1.state = .endFile := by
  have h := C10_pause_in_endFile env0 env0 iPause { eng0 with state := .endFile } rfl rfl rfl
  exact ⟨h.1, h.2.2.2.2.2.1⟩

/-- Helper: the state machine never consults the `skipBack` intent. -/
theorem machineStep_skipBack_irrelevant (env : Env) (i : Intents) (x : Bool) (e : Engine) :
    machineStep env { i with skipBack := x } e = machineStep env i e := by
  obtain ⟨st, ps, mbn, mpt, sm, mss, q, ipb, cur, str, fo, tpb, npt, po, npi, ds, ish, mml⟩ := e
  cases st <;> rfl

/-- C9: a debounced press of the Back (skip-backward) button never changes any
playback state: the `skipBack` intent is computed but never consulted by the
state machine, so for every control-loop step the whole engine (player state,
track clock, note queue, play order and cursor) is independent of the Back
button's input; the only observable effect of the Back button is its activity
LED, which shows the debounced held state. -/
theorem C9_back_button_no_effect (env : Env) (ms : Nat) (b : Buttons) (s : Sys)
    (x : Bool) (i : Intents) (e : Engine) :
    machineStep env { i with skipBack := x } e = machineStep env i e ∧
    (loopStep env ms { b with backLow := x } s).1.engine
      = (loopStep env ms b s).1.engine ∧
    (loopStep env ms b s).2.2.back = (debounceStep s.chBack b.backLow ms).1.held := by
  refine ⟨machineStep_skipBack_irrelevant env i x e, ?_, rfl⟩
  have h := machineStep_skipBack_irrelevant env
    { changeOnOff := (debounceStep s.chOn b.offLow ms).2,
      changePlayPause := (debounceStep s.chPlay b.pauseLow ms).2,
      skipBack := (debounceStep s.chBack b.backLow ms).2,
      skipForward := (debounceStep s.chForward (!b.forwardLow) ms).2,
      changeShuffle := (debounceStep s.chShuffle (!b.shuffleLow) ms).2 }
    (debounceStep s.chBack x ms).2 s.engine
  simp only [loopStep]
  exact congrArg Prod.fst h

/-- Witness for C3: at a concrete engine the guard passes and the clock
advances by exactly the event's delta in microseconds. -/
theorem C3_overflow_guard_witness :
    engTempo.microsSinceStart ≤ (machineStep env0 iNone engTempo).1.microsSinceStart ∧
    (machineStep env0 iNone engTempo).1.microsSinceStart
      = engTempo.microsSinceStart
          + (⟨0, .tempo 500000⟩ : MidiEvent).delta * engTempo.microsPerTick % U32 := by
  have h := C3_overflow_guard env0 iNone engTempo ⟨0, .tempo 500000⟩
    [⟨480, .channel 9 72⟩] ⟨rfl, rfl, rfl, rfl⟩ rfl (Or.inr ⟨rfl, rfl⟩)
    (by decide) (by decide) (by decide)
  exact ⟨h.1, h.2.2 (by decide)⟩

/-- Witness for C4: the concrete tempo event yields `microsPerTick = 1041`
with the queue untouched. -/
theorem C4_tempo_witness :
    (machineStep env0 iNone engTempo).1.microsPerTick = 500000 / engTempo.ticksPerBeat ∧
    (machineStep env0 iNone engTempo).1.queue = engTempo.queue := by
  have h := C4_tempo env0 iNone engTempo ⟨0, .tempo 500000⟩ 500000
    [⟨480, .channel 9 72⟩] ⟨rfl, rfl, rfl, rfl⟩ rfl (Or.inr ⟨rfl, rfl⟩)
    rfl (by decide) (by decide)
  exact ⟨h.1, h.2.1⟩

/-- Event processing never touches the remaining stream. -/
theorem processEvent_stream (e : Engine) (ev : MidiEvent) :
    (processEvent e ev).1.stream = e.stream := by
  unfold processEvent
  split
  · rfl
  · dsimp only
    split
    · rfl
    · split
      · rfl
      · cases ev.kind with
        | tempo uspb => rfl
        | channel code p1 => dsimp only; split <;> [rfl; (split <;> rfl)]
        | endTrack => rfl
        | unknown => rfl

/-- The run of `n + 1` steps is the run of `n` steps followed by one step. -/
theorem runSteps_fst_succ_back (env : Env) (i : Intents) (e : Engine) (n : Nat) :
    (runSteps env i e (n + 1)).1 = (machineStep env i (runSteps env i e n).1).1 := by
  induction n generalizing e with
  | zero => rfl
  | succ n ih =>
      show (runSteps env i (machineStep env i e).1 (n + 1)).1 = _
      rw [ih]
      rfl

/-- Feeding a run of zero-delta Note-On events to an `events`-state engine
queues all of them, in order, consuming exactly the run from the stream and
leaving the clocks untouched. -/
theorem runZeroRun_spec (env : Env) (i : Intents) (hq : quiet i) :
    ∀ (ps : List Nat) (e : Engine) (rest : List MidiEvent),
      e.state = .events → e.isPushedBack = false →
      e.stream = zeroRun ps ++ rest →
      e.queue.length + ps.length ≤ MAX_QUEUED_EVENTS →
      e.microsSinceStart < U32 →
      (runSteps env i e ps.length).1.state = .events ∧
      (runSteps env i e ps.length).1.isPushedBack = false ∧
      (runSteps env i e ps.length).1.stream = rest ∧
      (runSteps env i e ps.length).1.queue = e.queue ++ ps ∧
      (runSteps env i e ps.length).1.microsSinceStart = e.microsSinceStart ∧
      (runSteps env i e ps.length).1.microsPerTick = e.microsPerTick ∧
      (runSteps env i e ps.length).1.startMicros = e.startMicros := by
  intro ps
  induction ps with
  | nil =>
      intro e rest hs hpb hstr hlen hm
      refine ⟨hs, hpb, ?_, by simp [runSteps], rfl, rfl, rfl⟩
      show e.stream = rest
      simpa [zeroRun] using hstr
  | cons p ps ih =>
      intro e rest hs hpb hstr hlen hm
      have hstr' : e.stream = noteOn p :: (zeroRun ps ++ rest) := by
        rw [hstr]; rfl
      have hlen1 : e.queue.length < MAX_QUEUED_EVENTS := by
        simp only [List.length_cons] at hlen; omega
      have hstep := machineStep_events_fresh env e hq hs hpb hstr'
      rw [processEvent_noteOn { e with current := some (noteOn p), stream := zeroRun ps ++ rest }
        (noteOn p) p rfl
        (by show ¬ ((noteOn p).delta * e.microsPerTick % U32 ≠ 0 ∧ e.queue ≠ [])
            simp [noteOn])
        (by show ¬ (e.microsSinceStart + (noteOn p).delta * e.microsPerTick % U32) % U32
              < e.microsSinceStart
            simp [noteOn, Nat.mod_eq_of_lt hm])
        (by show e.queue.length < MAX_QUEUED_EVENTS
            exact hlen1)] at hstep
      have hrs : (runSteps env i e (p :: ps).length).1
          = (runSteps env i (machineStep env i e).1 ps.length).1 := rfl
      have hih := ih (machineStep env i e).1 rest
        (by rw [hstep]; exact hs)
        (by rw [hstep]; exact hpb)
        (by rw [hstep])
        (by rw [hstep]
            show (e.queue ++ [p]).length + ps.length ≤ MAX_QUEUED_EVENTS
            simp only [List.length_append, List.length_cons, List.length_nil]
            simp only [List.length_cons] at hlen
            omega)
        (by rw [hstep]
            show (e.microsSinceStart + (noteOn p).delta * e.microsPerTick % U32) % U32 < U32
            exact Nat.mod_lt _ (by norm_num [U32]))
      obtain ⟨a1, a2, a3, a4, a5, a6, a7⟩ := hih
      rw [hrs]
      refine ⟨a1, a2, a3, ?_, ?_, ?_, ?_⟩
      · rw [a4, hstep]
        show (e.queue ++ [p]) ++ ps = e.queue ++ (p :: ps)
        simp
      · rw [a5, hstep]
        show (e.microsSinceStart + (noteOn p).delta * e.microsPerTick % U32) % U32
          = e.microsSinceStart
        simp [noteOn, Nat.mod_eq_of_lt hm]
      · rw [a6, hstep]
      · rw [a7, hstep]

/-- C1: in the `events` state, an event whose delta converts to a nonzero
number of microseconds while notes are queued is not consumed: the pushed-back
flag is set, the engine moves to `waiting`, and the next `events` step
reprocesses that same event instead of reading a new one; consequently every
maximal run of zero-delta Note-On events is queued whole and flushed as one
batch before the first event of the next run is processed. -/
theorem C1_simultaneity_grouping :
    (∀ (env : Env) (i : Intents) (e : Engine) (ev : MidiEvent) (rest : List MidiEvent),
      quiet i → e.state = .events →
      ((e.isPushedBack = true ∧ e.current = some ev) ∨
       (e.isPushedBack = false ∧ e.stream = ev :: rest)) →
      ev.kind ≠ .unknown →
      ev.delta * e.microsPerTick % U32 ≠ 0 → e.queue ≠ [] →
      (machineStep env i e).1.state = .waiting ∧
      (machineStep env i e).1.isPushedBack = true ∧
      (machineStep env i e).1.current = some ev ∧
      (machineStep env i e).1.queue = e.queue ∧
      (machineStep env i e).1.microsSinceStart = e.microsSinceStart) ∧
    (∀ (env : Env) (i : Intents) (e : Engine) (ev : MidiEvent),
      quiet i → e.state = .events → e.isPushedBack = true → e.current = some ev →
      machineStep env i e = processEvent { e with isPushedBack := false } ev ∧
      (machineStep env i e).1.stream = e.stream) ∧
    (∀ (env : Env) (i : Intents) (e : Engine) (ps : List Nat) (ev : MidiEvent)
        (rest : List MidiEvent),
      quiet i → e.state = .events → e.isPushedBack = false → e.queue = [] →
      e.stream = zeroRun ps ++ ev :: rest → ps ≠ [] →
      ps.length ≤ MAX_QUEUED_EVENTS → e.microsSinceStart < U32 →
      ev.kind ≠ .unknown → ev.delta * e.microsPerTick % U32 ≠ 0 →
      (runSteps env i e (ps.length + 1)).1.state = .waiting ∧
      (runSteps env i e (ps.length + 1)).1.queue = ps ∧
      (runSteps env i e (ps.length + 1)).1.isPushedBack = true ∧
      (runSteps env i e (ps.length + 1)).1.current = some ev ∧
      (∀ (env2 : Env) (i2 : Intents), quiet i2 →
        toInt32 (sub32 (add32 (runSteps env i e (ps.length + 1)).1.microsSinceStart
                              (runSteps env i e (ps.length + 1)).1.startMicros) env2.now)
            ≤ MAX_MICROS_TO_DELAY →
        (machineStep env2 i2 (runSteps env i e (ps.length + 1)).1).2
            = { struck := ps.filter inRange } ∧
        (machineStep env2 i2 (runSteps env i e (ps.length + 1)).1).1.queue = [] ∧
        (machineStep env2 i2 (runSteps env i e (ps.length + 1)).1).1.state = .events ∧
        (machineStep env2 i2 (runSteps env i e (ps.length + 1)).1).1.isPushedBack = true ∧
        (machineStep env2 i2 (runSteps env i e (ps.length + 1)).1).1.current = some ev)) := by
  refine ⟨?parta, ?partb, ?partc⟩
  case parta =>
    intro env i e ev rest hq hs hf hk hu hqne
    have main : ∀ e' : Engine, machineStep env i e = processEvent e' ev →
        ev.delta * e'.microsPerTick % U32 ≠ 0 → e'.queue ≠ [] →
        e'.current = some ev → e'.queue = e.queue →
        e'.microsSinceStart = e.microsSinceStart →
        (machineStep env i e).1.state = .waiting ∧
        (machineStep env i e).1.isPushedBack = true ∧
        (machineStep env i e).1.current = some ev ∧
        (machineStep env i e).1.queue = e.queue ∧
        (machineStep env i e).1.microsSinceStart = e.microsSinceStart := by
      intro e' heq hu' hne' h3 h4 h5
      rw [heq, processEvent_pushback e' ev hk hu' hne']
      exact ⟨rfl, rfl, h3, h4, h5⟩
    rcases hf with ⟨hpb, hcur⟩ | ⟨hpb, hstr⟩
    · exact main { e with isPushedBack := false }
        (machineStep_events_pushed env e hq hs hpb hcur) hu hqne hcur rfl rfl
    · exact main { e with current := some ev, stream := rest }
        (machineStep_events_fresh env e hq hs hpb hstr) hu hqne rfl rfl rfl
  case partb =>
    intro env i e ev hq hs hpb hcur
    have h := machineStep_events_pushed env e hq hs hpb hcur
    exact ⟨h, by rw [h]; exact processEvent_stream _ ev⟩
  case partc =>
    intro env i e ps ev rest hq hs hpb hq0 hstr hne hlen hm hk hu
    obtain ⟨a1, a2, a3, a4, a5, a6, a7⟩ :=
      runZeroRun_spec env i hq ps e (ev :: rest) hs hpb hstr
        (by rw [hq0]; simpa using hlen) hm
    have hq4 : (runSteps env i e ps.length).1.queue = ps := by
      rw [a4, hq0]; simp
    have hu0 : ev.delta * (runSteps env i e ps.length).1.microsPerTick % U32 ≠ 0 := by
      rw [a6]; exact hu
    have hq5 : (runSteps env i e ps.length).1.queue ≠ [] := by
      rw [hq4]; exact hne
    have hstep := machineStep_events_fresh env (runSteps env i e ps.length).1 hq a1 a2 a3
    rw [processEvent_pushback
      { (runSteps env i e ps.length).1 with current := some ev, stream := rest }
      ev hk hu0 hq5] at hstep
    have hback := runSteps_fst_succ_back env i e ps.length
    have hst : (runSteps env i e (ps.length + 1)).1.state = .waiting := by
      rw [hback, hstep]
    have hqq : (runSteps env i e (ps.length + 1)).1.queue = ps := by
      rw [hback, hstep]; exact hq4
    have hpb1 : (runSteps env i e (ps.length + 1)).1.isPushedBack = true := by
      rw [hback, hstep]
    have hcur1 : (runSteps env i e (ps.length + 1)).1.current = some ev := by
      rw [hback, hstep]
    refine ⟨hst, hqq, hpb1, hcur1, ?_⟩
    intro env2 i2 hq2 hw2
    obtain ⟨b1, b2, b3, b4, b5, b6, b7, b8, b9⟩ :=
      machineStep_waiting_flush env2 ((runSteps env i e (ps.length + 1)).1) hq2 hst hw2
    exact ⟨by rw [b9, hqq], b1, b2, by rw [b3, hpb1], by rw [b4, hcur1]⟩

/-- Witness for C1: a run of two simultaneous Note-Ons followed by a
480-tick-delta Note-On lands in `waiting` with exactly those two notes queued,
and the next step flushes them as one batch. -/
theorem C1_simultaneity_grouping_witness :
    (runSteps env0 iNone engRun 3).1.state = .waiting ∧
    (runSteps env0 iNone engRun 3).1.queue = [72, 73] ∧
    (machineStep env0 iNone (runSteps env0 iNone engRun 3).1).2
      = { struck := [72, 73].filter inRange } := by
  have h := C1_simultaneity_grouping.2.2 env0 iNone engRun [72, 73]
    ⟨480, .channel 9 74⟩ [] ⟨rfl, rfl, rfl, rfl⟩ rfl rfl rfl rfl
    (by decide) (by decide) (by decide) (by decide) (by decide)
  exact ⟨h.1, h.2.1, (h.2.2.2.2 env0 iNone ⟨rfl, rfl, rfl, rfl⟩ (by decide)).1⟩

/-- Processing one event cannot push the queue beyond its capacity. -/
theorem processEvent_queue_len (e : Engine) (ev : MidiEvent)
    (h : e.queue.length ≤ MAX_QUEUED_EVENTS) :
    (processEvent e ev).1.queue.length ≤ MAX_QUEUED_EVENTS := by
  unfold processEvent
  split
  · simpa using h
  · dsimp only
    split
    · simpa using h
    · split
      · simpa using h
      · split
        · simpa using h
        · split
          · simpa using h
          · rename_i hfull
            split
            · simpa using h
            · rename_i hroom
              simp only [List.length_append, List.length_cons, List.length_nil]
              simp only [ge_iff_le, not_le] at hroom
              simpa using hroom
        · simpa using h
        · simpa using h

/-- An `events` step cannot push the queue beyond its capacity. -/
theorem stepEvents_queue_len (env : Env) (i : Intents) (e : Engine)
    (h : e.queue.length ≤ MAX_QUEUED_EVENTS) :
    (stepEvents env i e).1.queue.length ≤ MAX_QUEUED_EVENTS := by
  unfold stepEvents doPauseE
  repeat' split
  all_goals first
    | exact processEvent_queue_len _ _ h
    | exact h

/-- A `waiting` step cannot push the queue beyond its capacity. -/
theorem stepWaiting_queue_len (env : Env) (i : Intents) (e : Engine)
    (h : e.queue.length ≤ MAX_QUEUED_EVENTS) :
    (stepWaiting env i e).1.queue.length ≤ MAX_QUEUED_EVENTS := by
  unfold stepWaiting
  split
  · simpa using h
  · split
    · simpa [doPauseE] using h
    · split
      · simpa using h
      · by_cases hw : MAX_MICROS_TO_DELAY
            < toInt32 (sub32 (add32 e.microsSinceStart e.startMicros) env.now)
        · simpa [hw] using h
        · simp only [hw, if_false, ite_false]
          simp

/-- The remaining handlers never touch the queue or clear it. -/
theorem stepStopped_queue (env : Env) (i : Intents) (e : Engine) :
    (stepStopped env i e).queue = e.queue := by
  unfold stepStopped
  split
  · rfl
  · split <;> rfl

theorem stepPaused_queue (env : Env) (i : Intents) (e : Engine) :
    (stepPaused env i e).queue = e.queue := by
  unfold stepPaused
  split
  · rfl
  · split <;> rfl

theorem getNextFilenameE_queue (env : Env) (e : Engine) :
    (getNextFilenameE env e).1.queue = e.queue := by
  unfold getNextFilenameE
  dsimp only
  split <;> rfl

theorem stepEndFile_queue_len (env : Env) (i : Intents) (e : Engine)
    (h : e.queue.length ≤ MAX_QUEUED_EVENTS) :
    (stepEndFile env i e).queue.length ≤ MAX_QUEUED_EVENTS := by
  unfold stepEndFile
  repeat' split
  all_goals first
    | exact h
    | simpa [doPauseE, getNextFilenameE_queue] using h
    | (by_cases hn : (getNextFilenameE env e).2 = false <;>
        simp [hn, getNextFilenameE_queue, h])

theorem stepEndTrack_queue (env : Env) (i : Intents) (e : Engine) :
    (stepEndTrack env i e).queue = e.queue := by
  unfold stepEndTrack doPauseE
  repeat' split
  all_goals rfl

/-- C6: the note queue never exceeds `MAX_QUEUED_EVENTS = NUM_NOTE_PINS`
entries - every machine step preserves the bound - and concretely presenting
`NUM_NOTE_PINS + 1 = 20` simultaneous Note-On events leaves exactly
`NUM_NOTE_PINS = 19` notes queued, emits exactly one drop diagnostic, and
leaves the engine in the `events` state (no fault state is entered). -/
theorem C6_queue_overflow (env : Env) (i : Intents) (e : Engine)
    (h : e.queue.length ≤ MAX_QUEUED_EVENTS) :
    (machineStep env i e).1.queue.length ≤ MAX_QUEUED_EVENTS ∧
    (runSteps env0 iNone engQ 20).1.queue.length = NUM_NOTE_PINS ∧
    (runSteps env0 iNone engQ 20).1.state = .events ∧
    ((runSteps env0 iNone engQ 20).2.map (fun o => o.drops)).sum = 1 ∧
    (runSteps env0 iNone engQ 20).1.queue = pitches20.take NUM_NOTE_PINS := by
  refine ⟨?_, by decide, by decide, by decide, by decide⟩
  have hq : (stepShuffleFlag i e).queue = e.queue := shuffleFlag_queue i e
  have hlen : (stepShuffleFlag i e).queue.length ≤ MAX_QUEUED_EVENTS := by
    rw [hq]; exact h
  unfold machineStep
  split
  · simpa using hlen
  · simpa [stepStopped_queue] using hlen
  · simpa [stepPaused_queue] using hlen
  · exact stepEndFile_queue_len env i _ hlen
  · simpa [stepEndTrack_queue] using hlen
  · exact stepEvents_queue_len env i _ hlen
  · exact stepWaiting_queue_len env i _ hlen

/-- Witness for C6: the bound is preserved at a concrete engine holding a full
queue. -/
theorem C6_queue_overflow_witness :
    (machineStep env0 iNone eng0).1.queue.length ≤ MAX_QUEUED_EVENTS :=
  (C6_queue_overflow env0 iNone eng0 (by decide)).1

/-- Helper for the swap-permutation argument: prepending the `k`-th element
of `t` to `t` with position `k` overwritten by `hd` is a permutation of
`hd :: t`. -/
theorem getD_cons_set_perm :
    ∀ (t : List Nat) (k : Nat), k < t.length → ∀ hd : Nat,
      List.Perm (t.getD k 0 :: t.set k hd) (hd :: t) := by
  intro t
  induction t with
  | nil => intro k hk; exact absurd hk (by simp)
  | cons c t ih =>
      intro k hk hd
      cases k with
      | zero => exact List.Perm.swap hd c t
      | succ k =>
          have hk' : k < t.length := by simpa using hk
          exact (List.Perm.swap c (t.getD k 0) (t.set k hd)).trans
            (((ih k hk' hd).cons c).trans (List.Perm.swap hd c t))

/-- The array swap of the Fisher-Yates loop body is a permutation. -/
theorem swapIdx_perm :
    ∀ (l : List Nat) (a b : Nat), a < l.length → b < l.length →
      List.Perm ((l.set a (l.getD b 0)).set b (l.getD a 0)) l := by
  intro l
  induction l with
  | nil => intro a b ha; exact absurd ha (by simp)
  | cons c t ih =>
      intro a b ha hb
      cases a with
      | zero =>
          cases b with
          | zero => simp
          | succ k =>
              have hk : k < t.length := by simpa using hb
              exact getD_cons_set_perm t k hk c
      | succ m =>
          cases b with
          | zero =>
              have hm : m < t.length := by simpa using ha
              exact getD_cons_set_perm t m hm c
          | succ k =>
              have hm : m < t.length := by simpa using ha
              have hk : k < t.length := by simpa using hb
              exact (ih m k hm hk).cons c

/-- The whole Fisher-Yates loop is a permutation whenever the loop bound does
not exceed the array length. -/
theorem fyLoop_perm (rand : Nat → Nat) :
    ∀ (m : Nat) (l : List Nat), m ≤ l.length → List.Perm (fyLoop rand m l) l := by
  intro m
  induction m using Nat.strong_induction_on with
  | _ m ih =>
    match m with
    | 0 => intro l h; exact List.Perm.refl _
    | 1 => intro l h; exact List.Perm.refl _
    | n + 2 =>
      intro l h
      have hi : rand (n + 2) % (n + 2) < n + 2 := Nat.mod_lt _ (by omega)
      have hperm := swapIdx_perm l (rand (n + 2) % (n + 2)) (n + 1)
        (by omega) (by omega)
      have hrec := ih (n + 1) (by omega)
        ((l.set (rand (n + 2) % (n + 2)) (l.getD (n + 1) 0)).set (n + 1)
          (l.getD (rand (n + 2) % (n + 2)) 0))
        (by simp; omega)
      exact hrec.trans hperm

/-- C7: after any call to `setPlayOrder` - shuffled or not, for any playlist
size and any sequence of random draws - the play order is a permutation of
the index range `[0, numPlaylistTitles)`; in particular the rebuild performed
by `getNextFilename` on list exhaustion or shuffle-flag change re-establishes
the permutation invariant. -/
theorem C7_playOrder_permutation :
    (∀ (doShuffle : Bool) (rand : Nat → Nat) (n : Nat),
      List.Perm (setPlayOrder doShuffle rand n).1 (List.range n)) ∧
    (∀ (env : Env) (e : Engine),
      (e.numPlaylistTitles ≤ (e.nowPlayingIdx + 1) % 256 ∨ e.doShuffle ≠ e.isShuffled) →
      List.Perm (getNextFilenameE env e).1.playOrder (List.range e.numPlaylistTitles)) := by
  have main : ∀ (doShuffle : Bool) (rand : Nat → Nat) (n : Nat),
      List.Perm (setPlayOrder doShuffle rand n).1 (List.range n) := by
    intro doShuffle rand n
    unfold setPlayOrder
    split
    · exact List.Perm.refl _
    · exact fyLoop_perm rand n (List.range n) (by simp)
  refine ⟨main, ?_⟩
  intro env e hcond
  have hsel : (getNextFilenameE env e).1.playOrder
      = (setPlayOrder e.doShuffle env.rand e.numPlaylistTitles).1 := by
    unfold getNextFilenameE
    dsimp only
    rw [if_pos (by simpa [ge_iff_le] using hcond)]
  rw [hsel]
  exact main e.doShuffle env.rand e.numPlaylistTitles

/-- Witness for C7: the rebuild at list exhaustion at a concrete engine yields
a permutation of `[0, 3)`. -/
theorem C7_playOrder_permutation_witness :
    List.Perm (getNextFilenameE env0 { eng0 with nowPlayingIdx := 2 }).1.playOrder
      (List.range 3) :=
  C7_playOrder_permutation.2 env0 { eng0 with nowPlayingIdx := 2 } (by decide)

/-! ## Debounce behaviour over sample traces -/

theorem sub32_self (a : Nat) : sub32 a a = 0 := by
  simp only [sub32, U32]; omega

theorem sub32_of_le {a b : Nat} (hb : b ≤ a) (ha : a < U32) : sub32 a b = a - b := by
  simp only [sub32, U32] at *; omega

/-- Running the debounce over concatenated traces composes. -/
theorem debounceRun_append (c : Channel) (l1 l2 : List (Bool × Nat)) :
    debounceRun c (l1 ++ l2)
      = ((debounceRun (debounceRun c l1).1 l2).1,
         (debounceRun c l1).2 ++ (debounceRun (debounceRun c l1).1 l2).2) := by
  induction l1 generalizing c with
  | nil => simp [debounceRun]
  | cons x l1 ih =>
      cases x with
      | mk raw ms => simp [debounceRun, ih]

theorem pressSamples_succ (t d : Nat) :
    pressSamples t (d + 1) = pressSamples t d ++ [(true, t + 1 + d)] := by
  simp [pressSamples, List.range_succ]

/-- First sample of a press from a settled released channel: the raw change is
recorded but the held state does not move. -/
theorem debounce_press_start (t ms : Nat) :
    debounceStep ⟨false, false, t⟩ true ms = (⟨true, false, ms⟩, false) := by
  unfold debounceStep
  simp [sub32_self ms, MAX_BOUNCE_MS]

/-- A press sample while the raw press is younger than the debounce window:
no change. -/
theorem debounce_press_hold (t k : Nat) (hk : k ≤ MAX_BOUNCE_MS)
    (hlt : t + 1 + k < U32) :
    debounceStep ⟨true, false, t + 1⟩ true (t + 1 + k)
      = (⟨true, false, t + 1⟩, false) := by
  unfold debounceStep
  have hs : sub32 (t + 1 + k) (t + 1) = k := by
    rw [sub32_of_le (by omega) hlt]; omega
  simp [hs, Nat.not_lt.mpr hk]

/-- The press sample that outlives the debounce window: the held state flips
and the one-shot intent fires. -/
theorem debounce_press_flip (t k : Nat) (hk : MAX_BOUNCE_MS < k)
    (hlt : t + 1 + k < U32) :
    debounceStep ⟨true, false, t + 1⟩ true (t + 1 + k)
      = (⟨true, true, t + 1⟩, true) := by
  unfold debounceStep
  have hs : sub32 (t + 1 + k) (t + 1) = k := by
    rw [sub32_of_le (by omega) hlt]; omega
  simp [hs, hk]

/-- Further press samples after the held state has flipped are no-ops. -/
theorem debounce_press_stable (t ms : Nat) :
    debounceStep ⟨true, true, t⟩ true ms = (⟨true, true, t⟩, false) := by
  unfold debounceStep
  simp

/-- A press sustained for at most the debounce window (`d` samples span
`d - 1` milliseconds): the held state never moves and no intent fires. -/
theorem pressRun_short (t : Nat) :
    ∀ d, d ≤ MAX_BOUNCE_MS + 1 → t + d + 1 ≤ U32 →
      debounceRun ⟨false, false, t⟩ (pressSamples t d)
        = (if d = 0 then ⟨false, false, t⟩ else ⟨true, false, t + 1⟩,
           List.replicate d false) := by
  intro d
  induction d with
  | zero => intro _ _; simp [pressSamples, debounceRun]
  | succ d ih =>
      intro hd hU
      rw [pressSamples_succ, debounceRun_append, ih (by omega) (by omega)]
      cases d with
      | zero =>
          simp [debounceRun, debounce_press_start t (t + 1)]
      | succ d' =>
          have hstep := debounce_press_hold t (d' + 1) (by omega) (by omega)
          simp [debounceRun, hstep, List.replicate_succ']

/-- A press sustained strictly longer than the debounce window: the held state
flips at the first sample past the window, the intent fires there exactly
once, and holding longer produces nothing further. -/
theorem pressRun_long (t : Nat) :
    ∀ d, MAX_BOUNCE_MS + 2 ≤ d → t + d + 1 ≤ U32 →
      debounceRun ⟨false, false, t⟩ (pressSamples t d)
        = (⟨true, true, t + 1⟩,
           List.replicate (MAX_BOUNCE_MS + 1) false ++ true ::
             List.replicate (d - (MAX_BOUNCE_MS + 2)) false) := by
  intro d
  induction d with
  | zero => intro h _; exact absurd h (by omega)
  | succ d ih =>
      intro hd hU
      by_cases hcase : MAX_BOUNCE_MS + 2 ≤ d
      · rw [pressSamples_succ, debounceRun_append, ih hcase (by omega)]
        have harith : d + 1 - (MAX_BOUNCE_MS + 2) = (d - (MAX_BOUNCE_MS + 2)) + 1 := by
          omega
        simp [debounceRun, debounce_press_stable, harith, List.replicate_succ']
      · have hdd : d = MAX_BOUNCE_MS + 1 := by omega
        subst hdd
        rw [pressSamples_succ, debounceRun_append,
          pressRun_short t (MAX_BOUNCE_MS + 1) (le_refl _) (by omega)]
        have hstep := debounce_press_flip t (MAX_BOUNCE_MS + 1) (by omega) (by omega)
        have harith : MAX_BOUNCE_MS + 1 + 1 - (MAX_BOUNCE_MS + 2) = 0 := by omega
        simp [debounceRun, hstep, harith]

/-- C5 (amended): under once-per-millisecond sampling, a raw press sustained
for at most the debounce window (strictly less or exactly `MAX_BOUNCE_MS`
milliseconds) never changes the debounced held state and never emits an
intent; a press sustained strictly longer than the window flips the held
state and emits the intent exactly once, however long it is then held; and a
step emits an intent only on a transition of the held state to pressed. -/
theorem C5_debounce_window :
    (∀ t d : Nat, d ≤ MAX_BOUNCE_MS + 1 → t + d + 1 ≤ U32 →
      (debounceRun ⟨false, false, t⟩ (pressSamples t d)).1.held = false ∧
      (debounceRun ⟨false, false, t⟩ (pressSamples t d)).2.count true = 0) ∧
    (∀ t d : Nat, MAX_BOUNCE_MS + 2 ≤ d → t + d + 1 ≤ U32 →
      (debounceRun ⟨false, false, t⟩ (pressSamples t d)).1.held = true ∧
      (debounceRun ⟨false, false, t⟩ (pressSamples t d)).2.count true = 1) ∧
    (∀ (c : Channel) (raw : Bool) (ms : Nat),
      (debounceStep c raw ms).2 = true →
      raw = true ∧ c.held = false ∧ (debounceStep c raw ms).1.held = true) := by
  refine ⟨?_, ?_, ?_⟩
  · intro t d hd hU
    rw [pressRun_short t d hd hU]
    constructor
    · split <;> rfl
    · simp [List.count_replicate]
  · intro t d hd hU
    rw [pressRun_long t d hd hU]
    constructor
    · rfl
    · simp [List.count_replicate, List.count_append, List.count_cons]
  · intro c raw ms h
    unfold debounceStep at h ⊢
    dsimp only at h ⊢
    by_cases h2 : sub32 ms (if raw ≠ c.pressed then ms else c.changedMs) > MAX_BOUNCE_MS
    · rw [if_pos h2] at h ⊢
      by_cases h3 : raw = c.held
      · rw [if_neg (by simpa using h3)] at h
        simp at h
      · rw [if_pos (by simpa using h3)] at h ⊢
        have hr : raw = true := h
        refine ⟨hr, ?_, hr⟩
        cases hh : c.held
        · rfl
        · exact absurd (by rw [hr, hh]) h3
    · rw [if_neg h2] at h
      simp at h

set_option maxRecDepth 4096 in
/-- Counterexample for C5 as stated: a press sustained for exactly the
debounce window (raw `true` from millisecond 1 through millisecond 51, i.e.
`MAX_BOUNCE_MS = 50` milliseconds, then released) never changes the held
state and never emits an intent, because the sketch requires the elapsed time
to strictly exceed `MAX_BOUNCE_MS`. -/
theorem C5_debounce_counterexample :
    (debounceRun ⟨false, false, 0⟩
        (pressSamples 0 51 ++ [(false, 52), (false, 53), (false, 104)])).1.held = false ∧
    (debounceRun ⟨false, false, 0⟩
        (pressSamples 0 51 ++ [(false, 52), (false, 53), (false, 104)])).2.count true
      = 0 := by
  decide

/-- Witness for C5: a 40-sample press changes nothing; a 60-sample press flips
the held state with exactly one intent. -/
theorem C5_debounce_window_witness :
    ((debounceRun ⟨false, false, 1000⟩ (pressSamples 1000 40)).1.held = false ∧
     (debounceRun ⟨false, false, 1000⟩ (pressSamples 1000 40)).2.count true = 0) ∧
    ((debounceRun ⟨false, false, 1000⟩ (pressSamples 1000 60)).1.held = true ∧
     (debounceRun ⟨false, false, 1000⟩ (pressSamples 1000 60)).2.count true = 1) :=
  ⟨C5_debounce_window.1 1000 40 (by decide) (by decide),
   C5_debounce_window.2.1 1000 60 (by decide) (by decide)⟩

/-- C8 (code-bug evidence): the machine step is entirely independent of the
result of `readConfiguration()` - the sketch calls it and discards its return
value - and when the On/Off button starts playback from `stopped` with the
configuration unreadable (`cfgOk = false`, so `playlistUrl` is NULL), as long
as `cacheFile(NULL)` happens to return a non-null pointer (its behaviour on a
NULL argument is undefined), the engine proceeds to `endFile`, not to the
`error` state the specification requires. -/
theorem C8_config_failure_ignored :
    (∀ (env : Env) (i : Intents) (e : Engine) (b : Bool),
      machineStep { env with cfgOk := b } i e = machineStep env i e) ∧
    (∀ (env : Env) (i : Intents) (e : Engine) (s : String),
      e.state = .stopped → i.changeOnOff = true → env.cfgOk = false →
      env.cacheResult = some s →
      (machineStep env i e).1.state = .endFile ∧
      (machineStep env i e).1.state ≠ .error) := by
  constructor
  · intro env i e b
    obtain ⟨st, ps, mbn, mpt, sm, mss, q, ipb, cur, str, fo, tpb, npt, po, npi, ds, ish, mml⟩ := e
    cases st <;> rfl
  · intro env i e s hs hon hcfg hcache
    simp only [machineStep, hs, shuffleFlag_state, stepStopped, hon, hcache,
      Bool.not_true, Bool.false_eq_true, if_false]
    simp

/-- Witness for C8: at a concrete engine and environment with an unreadable
configuration, the step lands in `endFile` rather than `error`. -/
theorem C8_config_failure_ignored_witness :
    (machineStep { env0 with cfgOk := false }
        ⟨true, false, false, false, false⟩ { eng0 with state := .stopped }).1.state
      = .endFile :=
  (C8_config_failure_ignored.2 { env0 with cfgOk := false }
    ⟨true, false, false, false, false⟩ { eng0 with state := .stopped }
    "song.mid" rfl rfl rfl rfl).1

end Glocken
